import Mathlib

/-!
Shallow embedding of the SAS-TimeStamps deterministic timestamp assignment
engine (`sw.js`): name normalization, category classification, payload
extraction, lexicographic fraction encoding, slot assignment, stable nudge,
and offset composition, plus the `/api` transport handler.

Modelling conventions:
* JS numbers used by the fraction encoder are modelled exactly over `ℚ`
  (the mathematical value the floating-point code approximates).
* 32-bit unsigned arithmetic in the FNV-1a hash is modelled over `ℕ` with
  explicit reduction `% 2^32`; `Math.imul(a, b) >>> 0` on unsigned 32-bit
  inputs equals `a * b % 2^32`, and `h ^= c` is `^^^` for `c < 2^16`.
* JS strings are UTF-16; the hash iterates `charCodeAt`, which we model by
  encoding each character to its UTF-16 code units.  The fraction encoder
  indexes characters; we model them as Lean `Char`s (for characters outside
  the basic multilingual plane JS would see two surrogate units, each
  mapping to the maximum rank, while the model sees one maximum-rank
  character; every claim below is insensitive to this).
* `strToUpper`/`strTrim`/`strStartsWith`/`strDrop` below model
  `toUpperCase()`/`trim()`/`startsWith()`/`slice()`; they agree with the JS
  functions on ASCII input, which covers the charset, every configured
  category key and every fixture (JS `toUpperCase` and `trim` additionally
  handle some non-ASCII characters, and `slice` counts UTF-16 units rather
  than characters; no claim below depends on those differences).
* The `Date`-derived fields (`isoLocal`, `isoUTC`, `epochMillis`) are
  functions of `offsetSeconds` and a fixed base instant; the base instant
  depends on the host's local civil calendar, so we model `epochMillis`
  parametrically in the base epoch value and omit the two formatted strings.
-/

/-- Model of JS `s.toUpperCase()` (ASCII case mapping). -/
def strToUpper (s : String) : String :=
  (s.toList.map Char.toUpper).asString

/-- Model of JS `s.trim()`: remove whitespace from both ends. -/
def strTrim (s : String) : String :=
  ((s.toList.dropWhile Char.isWhitespace).reverse.dropWhile
    Char.isWhitespace).reverse.asString

/-- Model of JS `s.startsWith(p)`. -/
def strStartsWith (s p : String) : Bool :=
  p.toList.isPrefixOf s.toList

/-- Model of JS `s.slice(n)`: drop the first `n` characters. -/
def strDrop (s : String) (n : ℕ) : String :=
  (s.toList.drop n).asString

/-- `const SECONDS_BETWEEN_ITEMS = 1;` -/
def SECONDS_BETWEEN_ITEMS : ℕ := 1

/-- `const SLOTS_PER_CATEGORY = 86400;` -/
def SLOTS_PER_CATEGORY : ℕ := 86400

/-- `UNPREFIXED_IN_CATEGORY`: map from category key to exact unprefixed names,
in the object's insertion order (which `Object.entries` preserves). -/
def UNPREFIXED_IN_CATEGORY : List (String × List String) :=
  [("APP_", ["OSDXMB", "XEBPLUS"]),
   ("APPS", []),
   ("PS1_", []),
   ("EMU_", []),
   ("GME_", []),
   ("DST_", []),
   ("DBG_", []),
   ("RAA_", ["RESTART", "POWEROFF"]),
   ("RTE_", ["NEUTRINO"]),
   ("SYS_", ["BOOT"]),
   ("ZZY_", ["EXPLOITS"]),
   ("ZZZ_", ["BM", "MATRIXTEAM", "OPL"])]

/-- `CATEGORY_ORDER`: category keys, newest → oldest. -/
def CATEGORY_ORDER : List String :=
  ["APP_", "APPS", "PS1_", "EMU_", "GME_", "DST_", "DBG_", "RAA_", "RTE_",
   "DEFAULT", "SYS_", "ZZY_", "ZZZ_"]

/-- `CATEGORY_INDEX[k]`: position of key `k` in `CATEGORY_ORDER`.  The JS
object built by `Object.fromEntries(CATEGORY_ORDER.map((k,i)=>[k,i]))`
agrees with `List.indexOf` on every key that occurs in the list (each key
occurs once); lookups of absent keys would be `undefined` in JS and are
never well-defined, so the model is only meaningful on members, which is
proved below. -/
def CATEGORY_INDEX (k : String) : ℕ := CATEGORY_ORDER.indexOf k

/-- `const CATEGORY_BLOCK_SECONDS = SLOTS_PER_CATEGORY * SECONDS_BETWEEN_ITEMS;` -/
def CATEGORY_BLOCK_SECONDS : ℕ := SLOTS_PER_CATEGORY * SECONDS_BETWEEN_ITEMS

/-- `const CHARSET = " 0123456789ABCDEFGHIJKLMNOPQRSTUVWXYZ_-.";` -/
def CHARSET : String := " 0123456789ABCDEFGHIJKLMNOPQRSTUVWXYZ_-."

/-- `CHAR_INDEX`: association list from character to its index, as built by
`new Map(Array.from(CHARSET).map((ch,i)=>[ch,i]))`. -/
def CHAR_INDEX : List (Char × ℕ) :=
  CHARSET.toList.enum.map (fun p => (p.2, p.1))

/-- `const BASE = CHARSET.length;` -/
def BASE : ℕ := CHARSET.length

/-- `CHAR_INDEX.has(ch) ? CHAR_INDEX.get(ch) : (BASE - 1)` -/
def charCode (c : Char) : ℕ :=
  match CHAR_INDEX.lookup c with
  | some i => i
  | none => BASE - 1

/-- `function normalizeToEffective(name)`: trim, upper-case, then resolve
through the configured table, the built-ins, or return unchanged. -/
def normalizeToEffective (name : String) : String :=
  let n := strToUpper (strTrim name)
  match UNPREFIXED_IN_CATEGORY.find? (fun p => p.2.contains n) with
  | some p => if p.1 = "APPS" then "APPS" else p.1 ++ n
  | none =>
    if n = "OSDXMB" ∨ n = "XEBPLUS" then "APP_" ++ n
    else if n = "RESTART" ∨ n = "POWEROFF" then "RAA_" ++ n
    else if n = "NEUTRINO" then "RTE_" ++ n
    else if n = "BOOT" then "SYS_BOOT"
    else if n = "EXPLOITS" then "ZZY_EXPLOITS"
    else if n = "BM" ∨ n = "MATRIXTEAM" ∨ n = "OPL" then "ZZZ_" ++ n
    else n

/-- `function effectiveCategoryKey(eff)`: ordered first-match classification. -/
def effectiveCategoryKey (eff : String) : String :=
  if strStartsWith eff "APP_" then "APP_"
  else if eff = "APPS" then "APPS"
  else if strStartsWith eff "PS1_" then "PS1_"
  else if strStartsWith eff "EMU_" then "EMU_"
  else if strStartsWith eff "GME_" then "GME_"
  else if strStartsWith eff "DST_" then "DST_"
  else if strStartsWith eff "DBG_" then "DBG_"
  else if strStartsWith eff "RAA_" then "RAA_"
  else if strStartsWith eff "RTE_" then "RTE_"
  else if strStartsWith eff "SYS_" ∨ eff = "SYS" then "SYS_"
  else if strStartsWith eff "ZZY_" then "ZZY_"
  else if strStartsWith eff "ZZZ_" then "ZZZ_"
  else "DEFAULT"

/-- `function categoryLabel(eff)` -/
def categoryLabel (eff : String) : String :=
  let key := effectiveCategoryKey eff
  if key = "DEFAULT" then "DEFAULT"
  else if key = "APPS" then "APPS"
  else key ++ "*"

/-- `payload.replace(regex dash, "")`: delete every dash character. -/
def removeDashes (s : String) : String :=
  (s.toList.filter (fun c => c ≠ '-')).asString

/-- `function payloadForEffective(eff)` -/
def payloadForEffective (eff : String) : String :=
  let key := effectiveCategoryKey eff
  if key = "APPS" then "APPS"
  else if key = "DEFAULT" then removeDashes eff
  else removeDashes (if strStartsWith eff key then strDrop eff key.length else eff)

/-- The loop of `lexFraction`: carries the running `total` and `scale`;
each step does `scale *= BASE; total += (code + 1) / scale`. -/
def lexFracLoop : List Char → ℚ → ℚ → ℚ
  | [], total, _ => total
  | c :: rest, total, scale =>
    let scale2 := scale * (BASE : ℚ)
    lexFracLoop rest (total + ((charCode c : ℚ) + 1) / scale2) scale2

/-- `function lexFraction(payload)`: upper-case, iterate over the first
`min(128, length)` characters accumulating `(code+1)/BASE^i`. -/
def lexFraction (payload : String) : ℚ :=
  lexFracLoop ((strToUpper payload).toList.take 128) 0 1

/-- Result record of `slotIndexWithinCategory`. -/
structure SlotInfo where
  slot : ℤ
  payloadUsed : String
  deriving DecidableEq, Repr

/-- `function slotIndexWithinCategory(eff)`:
`slot = Math.floor(frac * SLOTS_PER_CATEGORY)`, clamped to
`SLOTS_PER_CATEGORY - 1` when `slot >= SLOTS_PER_CATEGORY`. -/
def slotIndexWithinCategory (eff : String) : SlotInfo :=
  let payload := payloadForEffective eff
  let frac := lexFraction payload
  let slot0 : ℤ := ⌊frac * (SLOTS_PER_CATEGORY : ℚ)⌋
  let slot := if slot0 ≥ (SLOTS_PER_CATEGORY : ℤ)
              then (SLOTS_PER_CATEGORY : ℤ) - 1 else slot0
  ⟨slot, payload⟩

/-- UTF-16 code units of a string, as iterated by JS `charCodeAt`. -/
def utf16CodeUnits (s : String) : List ℕ :=
  s.toList.flatMap (fun c =>
    let n := c.toNat
    if n < 65536 then [n]
    else [55296 + (n - 65536) / 1024, 56320 + (n - 65536) % 1024])

/-- One FNV-1a step: `h ^= code; h = Math.imul(h, 0x01000193) >>> 0`. -/
def fnvStep (h code : ℕ) : ℕ :=
  ((h ^^^ code) * 16777619) % 4294967296

/-- `function stableHash01(s)`: FNV-1a 32-bit over UTF-16 code units
(seed `0x811c9dc5`), then the least-significant bit. -/
def stableHash01 (s : String) : ℕ :=
  ((utf16CodeUnits s).foldl fnvStep 2166136261) &&& 1

/-- The `Plan` record returned by `planForName`, without the two
`Date`-formatted strings (see the module docstring); `epochMillis` is
recovered from `offsetSeconds` by `epochMillis` below. -/
structure Plan where
  ok : Bool
  input : String
  effectiveName : String
  category : String
  categoryKey : String
  categoryIndex : ℕ
  slot : ℤ
  offsetSeconds : ℤ
  payloadUsed : String
  deriving DecidableEq, Repr

/-- `function planForName(originalName)` -/
def planForName (originalName : String) : Plan :=
  let eff := normalizeToEffective originalName
  let catKey := effectiveCategoryKey eff
  let catIdx := CATEGORY_INDEX catKey
  let si := slotIndexWithinCategory eff
  let nudge := stableHash01 eff
  let catOffset : ℤ := (catIdx : ℤ) * (CATEGORY_BLOCK_SECONDS : ℤ)
  let nameOffset : ℤ := si.slot * (SECONDS_BETWEEN_ITEMS : ℤ) + (nudge : ℤ)
  { ok := true
    input := originalName
    effectiveName := eff
    category := categoryLabel eff
    categoryKey := catKey
    categoryIndex := catIdx
    slot := si.slot
    offsetSeconds := catOffset + nameOffset
    payloadUsed := si.payloadUsed }

/-- `toUTCDateFromLocalBaseMinusSeconds` / `dt.valueOf()`: the epoch-millis
value of the final instant, parametrised by the epoch-millis value
`baseMillis` of the local base instant 2098-12-31 23:59:59 (which depends
on the host timezone). -/
def epochMillis (baseMillis : ℤ) (p : Plan) : ℤ :=
  baseMillis - p.offsetSeconds * 1000

/-- The positional-sum form of the encoder as the spec states it: the
character at 0-based position `i` (1-based position `i + 1`) contributes
`(rank + 1) / BASE ^ (i + 1)`. -/
def specFracFrom : ℕ → List Char → ℚ
  | _, [] => 0
  | i, c :: rest =>
    ((charCode c : ℚ) + 1) / (BASE : ℚ) ^ (i + 1) + specFracFrom (i + 1) rest

/-- Exact numerator of the fraction of a character list over the
denominator `BASE ^ length`. -/
def lexNum : List Char → ℕ
  | [] => 0
  | c :: rest => (charCode c + 1) * BASE ^ rest.length + lexNum rest

/-- Integer-level evaluation of the slot computed by
`slotIndexWithinCategory` from a payload (proved below to agree with the
`ℚ`-level floor-and-clamp computation). -/
def slotNat (payload : String) : ℕ :=
  let l := (strToUpper payload).toList.take 128
  let r := lexNum l * SLOTS_PER_CATEGORY / BASE ^ l.length
  if r ≥ SLOTS_PER_CATEGORY then SLOTS_PER_CATEGORY - 1 else r

/-- Integer-level evaluation of `planForName` (proved below to agree with
it), used to evaluate plans on concrete inputs. -/
def planEval (originalName : String) : Plan :=
  let eff := normalizeToEffective originalName
  let catKey := effectiveCategoryKey eff
  let catIdx := CATEGORY_INDEX catKey
  let payload := payloadForEffective eff
  let slotN := slotNat payload
  let nudge := stableHash01 eff
  { ok := true
    input := originalName
    effectiveName := eff
    category := categoryLabel eff
    categoryKey := catKey
    categoryIndex := catIdx
    slot := (slotN : ℤ)
    offsetSeconds :=
      ((catIdx * CATEGORY_BLOCK_SECONDS
        + (slotN * SECONDS_BETWEEN_ITEMS + nudge) : ℕ) : ℤ)
    payloadUsed := payload }

/-- Body of the `/api` JSON response: either a serialized `Plan` (whose `ok`
field is `true`) or the failure object `{ ok: false, error: ... }`. -/
inductive ApiBody where
  | planBody (p : Plan)
  | errorBody (ok : Bool) (error : String)
  deriving DecidableEq, Repr

/-- The `Response` produced by `handleApi`: status plus headers plus body. -/
structure ApiResponse where
  status : ℕ
  contentType : String
  cacheControl : String
  allowOrigin : String
  body : ApiBody
  deriving DecidableEq, Repr

/-- `async function handleApi(url)`: `url.searchParams.get('name')` is
`none` when the parameter is absent; `|| ''` coalesces to the empty string,
and the emptiness test is JS string truthiness. -/
def handleApi (nameParam : Option String) : ApiResponse :=
  let name := nameParam.getD ""
  let body := if name = ""
              then ApiBody.errorBody false "Missing 'name' query param"
              else ApiBody.planBody (planForName name)
  { status := 200
    contentType := "application/json; charset=utf-8"
    cacheControl := "no-store"
    allowOrigin := "*"
    body := body }

/-- Whether key `k`, tested in priority order, matches an effective name —
the classification contract as the spec phrases it: prefix match for the
four-character keys, exact match for the literal `"APPS"`, bare `"SYS"`
accepted for `SYS_`; `DEFAULT` is the no-match sentinel, not a tested rule. -/
def matchesKey (eff k : String) : Bool :=
  if k = "APPS" then eff == "APPS"
  else if k = "SYS_" then strStartsWith eff "SYS_" || eff == "SYS"
  else if k = "DEFAULT" then false
  else strStartsWith eff k

/-- Spec-side classifier: the first key of `CATEGORY_ORDER` whose rule
matches wins; `DEFAULT` when no rule matches. -/
def specCategoryKey (eff : String) : String :=
  (CATEGORY_ORDER.find? (fun k => matchesKey eff k)).getD "DEFAULT"

/-- A `Plan` with its `input` field blanked: two plans agree on every field
other than `input` exactly when their `planCore`s are equal. -/
def planCore (p : Plan) : Plan := { p with input := "" }

/-! ### Supporting lemmas -/

lemma BASE_eq : BASE = 40 := by decide

lemma ratBASE_eq : (BASE : ℚ) = 40 := by rw [BASE_eq]; norm_num

lemma lookup_enumFrom_map_lt {l : List Char} {c : Char} :
    ∀ {n i : ℕ},
      ((l.enumFrom n).map (fun p => (p.2, p.1))).lookup c = some i →
      i < n + l.length := by
  induction l with
  | nil => intro n i h; simp [List.lookup] at h
  | cons a t ih =>
    intro n i h
    simp only [List.enumFrom, List.map, List.lookup] at h
    cases hb : c == a with
    | true =>
      rw [hb] at h
      simp only [Option.some.injEq] at h
      simp only [List.length_cons]
      omega
    | false =>
      rw [hb] at h
      have := ih h
      simp only [List.length_cons]
      omega

lemma lookup_enumFrom_map_of_not_mem {l : List Char} {c : Char}
    (hc : c ∉ l) :
    ∀ {n : ℕ}, ((l.enumFrom n).map (fun p => (p.2, p.1))).lookup c = none := by
  induction l with
  | nil => intro n; simp [List.lookup]
  | cons a t ih =>
    intro n
    simp only [List.mem_cons, not_or] at hc
    simp only [List.enumFrom, List.map, List.lookup]
    have hb : (c == a) = false := by simp [hc.1]
    rw [hb]
    exact ih hc.2

lemma CHAR_INDEX_eq :
    CHAR_INDEX = (CHARSET.toList.enumFrom 0).map (fun p => (p.2, p.1)) := rfl

lemma charCode_le (c : Char) : charCode c ≤ 39 := by
  cases h : CHAR_INDEX.lookup c with
  | none =>
    simp only [charCode, h]
    decide
  | some i =>
    have h' : ((CHARSET.toList.enumFrom 0).map
        (fun p => (p.2, p.1))).lookup c = some i := by
      rw [← CHAR_INDEX_eq]; exact h
    have hlt : i < 0 + CHARSET.toList.length := lookup_enumFrom_map_lt h'
    have hlen : CHARSET.toList.length = 40 := by decide
    simp only [charCode, h]
    omega

lemma charCode_of_not_mem {c : Char} (hc : c ∉ CHARSET.toList) :
    charCode c = 39 := by
  have h : CHAR_INDEX.lookup c = none := by
    rw [CHAR_INDEX_eq]
    exact lookup_enumFrom_map_of_not_mem hc
  simp only [charCode, h]
  decide

lemma specFracFrom_succ (l : List Char) :
    ∀ k : ℕ, specFracFrom (k + 1) l = specFracFrom k l / (BASE : ℚ) := by
  induction l with
  | nil => intro k; simp [specFracFrom]
  | cons c t ih =>
    intro k
    have hB : (BASE : ℚ) ≠ 0 := by rw [ratBASE_eq]; norm_num
    rw [specFracFrom, specFracFrom, ih (k + 1)]
    field_simp
    ring

lemma lexFracLoop_eq (l : List Char) :
    ∀ (total scale : ℚ), scale ≠ 0 →
      lexFracLoop l total scale = total + specFracFrom 0 l / scale := by
  induction l with
  | nil => intro t s _; simp [lexFracLoop, specFracFrom]
  | cons c rest ih =>
    intro t s hs
    have hB : (BASE : ℚ) ≠ 0 := by rw [ratBASE_eq]; norm_num
    have hsB : s * (BASE : ℚ) ≠ 0 := mul_ne_zero hs hB
    simp only [lexFracLoop]
    rw [ih _ _ hsB, specFracFrom, specFracFrom_succ]
    field_simp
    ring

lemma lexFraction_eq_spec (p : String) :
    lexFraction p = specFracFrom 0 ((strToUpper p).toList.take 128) := by
  rw [lexFraction, lexFracLoop_eq _ _ _ one_ne_zero]
  simp

lemma specFracFrom_nonneg (l : List Char) : ∀ k : ℕ, 0 ≤ specFracFrom k l := by
  induction l with
  | nil => intro k; simp [specFracFrom]
  | cons c t ih =>
    intro k
    rw [specFracFrom]
    have h1 : (0 : ℚ) ≤ ((charCode c : ℚ) + 1) / (BASE : ℚ) ^ (k + 1) := by
      rw [ratBASE_eq]; positivity
    have h2 := ih (k + 1)
    linarith

lemma specFracFrom_zero_lt (l : List Char) : specFracFrom 0 l < 40 / 39 := by
  induction l with
  | nil => rw [specFracFrom]; norm_num
  | cons c t ih =>
    rw [specFracFrom, specFracFrom_succ, ratBASE_eq]
    have hc : (charCode c : ℚ) ≤ 39 := by exact_mod_cast charCode_le c
    have ht := specFracFrom_nonneg t 0
    norm_num
    linarith

lemma lexFraction_nonneg (p : String) : 0 ≤ lexFraction p := by
  rw [lexFraction_eq_spec]; exact specFracFrom_nonneg _ 0

lemma lexFraction_lt (p : String) : lexFraction p < 40 / 39 := by
  rw [lexFraction_eq_spec]; exact specFracFrom_zero_lt _

lemma specFracFrom_zero_eq (l : List Char) :
    specFracFrom 0 l = (lexNum l : ℚ) / (BASE : ℚ) ^ l.length := by
  induction l with
  | nil => simp [specFracFrom, lexNum]
  | cons c t ih =>
    have hB : (BASE : ℚ) ≠ 0 := by rw [ratBASE_eq]; norm_num
    rw [specFracFrom, specFracFrom_succ, ih, lexNum]
    simp only [List.length_cons]
    push_cast
    field_simp
    ring

lemma lexFraction_eq_lexNum (p : String) :
    lexFraction p =
      (lexNum ((strToUpper p).toList.take 128) : ℚ) /
        (BASE : ℚ) ^ ((strToUpper p).toList.take 128).length := by
  rw [lexFraction_eq_spec, specFracFrom_zero_eq]

lemma slotIndexWithinCategory_eval (eff : String) :
    slotIndexWithinCategory eff =
      ⟨(slotNat (payloadForEffective eff) : ℤ), payloadForEffective eff⟩ := by
  have hfloor : ∀ p : String,
      ⌊lexFraction p * (SLOTS_PER_CATEGORY : ℚ)⌋ =
        ((lexNum ((strToUpper p).toList.take 128) * SLOTS_PER_CATEGORY /
          BASE ^ ((strToUpper p).toList.take 128).length : ℕ) : ℤ) := by
    intro p
    set l := (strToUpper p).toList.take 128 with hl
    rw [lexFraction_eq_lexNum]
    have h1 : (lexNum l : ℚ) / (BASE : ℚ) ^ l.length * (SLOTS_PER_CATEGORY : ℚ)
        = (((lexNum l * SLOTS_PER_CATEGORY : ℕ) : ℤ) : ℚ) /
            ((BASE ^ l.length : ℕ) : ℚ) := by
      push_cast
      ring
    rw [h1, Rat.floor_intCast_div_natCast]
    exact (Int.natCast_div _ _).symm
  have int_clamp : ∀ n S : ℕ, 1 ≤ S →
      (if (n : ℤ) ≥ (S : ℤ) then (S : ℤ) - 1 else (n : ℤ))
        = ((if n ≥ S then S - 1 else n : ℕ) : ℤ) := by
    intro n S hS
    split_ifs <;> omega
  simp only [slotIndexWithinCategory, slotNat]
  rw [hfloor, int_clamp _ _ (by norm_num [SLOTS_PER_CATEGORY])]

lemma planForName_eval (s : String) : planForName s = planEval s := by
  simp only [planForName, planEval, slotIndexWithinCategory_eval]
  refine Plan.mk.injEq .. |>.mpr ?_
  refine ⟨rfl, rfl, rfl, rfl, rfl, rfl, rfl, ?_, rfl⟩
  push_cast
  ring

lemma slotNat_le (p : String) : slotNat p ≤ SLOTS_PER_CATEGORY - 1 := by
  simp only [slotNat, SLOTS_PER_CATEGORY]
  split_ifs <;> omega

lemma stableHash01_le (s : String) : stableHash01 s ≤ 1 :=
  Nat.and_le_right

lemma lexFraction_dot_eq : lexFraction "." = 1 := by
  rw [lexFraction_eq_lexNum,
    show (strToUpper ".").toList.take 128 = ['.'] from by decide]
  norm_num [show lexNum ['.'] = 40 from by decide, BASE_eq]

set_option maxHeartbeats 1000000 in
lemma effectiveCategoryKey_eq_spec (eff : String) :
    effectiveCategoryKey eff = specCategoryKey eff := by
  unfold effectiveCategoryKey
  split_ifs with h1 h2 h3 h4 h5 h6 h7 h8 h9 h10 h11 h12 <;>
    simp_all [specCategoryKey, CATEGORY_ORDER, List.find?_cons, matchesKey]

lemma specCategoryKey_mem (eff : String) : specCategoryKey eff ∈ CATEGORY_ORDER := by
  unfold specCategoryKey
  cases hf : CATEGORY_ORDER.find? (fun k => matchesKey eff k) with
  | none => decide
  | some k =>
    simp only [Option.getD]
    exact List.mem_of_find?_eq_some hf

lemma effectiveCategoryKey_mem (eff : String) :
    effectiveCategoryKey eff ∈ CATEGORY_ORDER := by
  rw [effectiveCategoryKey_eq_spec]
  exact specCategoryKey_mem eff

/-! ### Claim theorems -/

/-- C1, counterexample: the strict cross-category separation claimed by the
spec fails at the block boundary.  `"RAA_.A"` sits in category `RAA_`
(index 7) with the maximal name offset (clamped slot `86399`, nudge `1`),
and `"RTE_-"` sits in category `RTE_` (index 8) with the minimal name
offset (empty payload, slot `0`, nudge `0`): the category indices are
strictly ordered but the two offsets are equal, not strictly ordered. -/
theorem cross_category_separation_cex :
    (planForName "RAA_.A").categoryIndex < (planForName "RTE_-").categoryIndex
    ∧ ¬ ((planForName "RAA_.A").offsetSeconds
          < (planForName "RTE_-").offsetSeconds) := by
  simp only [planForName_eval]
  decide

/-- C1, amended: whenever `plan(s1)` has a strictly smaller `categoryIndex`
than `plan(s2)`, its `offsetSeconds` is less than or equal to that of
`plan(s2)` (equality is attainable exactly at the boundary between adjacent
category blocks, since a name's slot-plus-nudge offset can reach, though
never exceed, the block size `SLOTS_PER_CATEGORY * SECONDS_BETWEEN_ITEMS`). -/
theorem cross_category_offset_mono (s1 s2 : String)
    (h : (planForName s1).categoryIndex < (planForName s2).categoryIndex) :
    (planForName s1).offsetSeconds ≤ (planForName s2).offsetSeconds := by
  rw [planForName_eval, planForName_eval] at h ⊢
  simp only [planEval] at h ⊢
  have b1 := slotNat_le (payloadForEffective (normalizeToEffective s1))
  have n1 := stableHash01_le (normalizeToEffective s1)
  simp only [CATEGORY_BLOCK_SECONDS, SLOTS_PER_CATEGORY,
    SECONDS_BETWEEN_ITEMS] at *
  omega

/-- Witness for C1's amended theorem at `"RESTART"` (category index 7) and
`"BOOT"` (category index 10). -/
theorem cross_category_offset_mono_witness :
    (planForName "RESTART").categoryIndex < (planForName "BOOT").categoryIndex
    ∧ (planForName "RESTART").offsetSeconds ≤ (planForName "BOOT").offsetSeconds :=
  ⟨by simp only [planForName_eval]; decide,
   cross_category_offset_mono "RESTART" "BOOT"
     (by simp only [planForName_eval]; decide)⟩

/-- C2, counterexample: the fraction encoder is not bounded strictly below
`1`: the payload `"."` (the maximal-rank character) maps to exactly `1`. -/
theorem lexFraction_unit_interval_cex : ¬ (lexFraction "." < 1) := by
  rw [lexFraction_dot_eq]
  norm_num

/-- C2, amended: for every payload string the encoder's value lies in
`[0, 40/39)` — not `[0, 1)` — with the empty payload mapping to `0`
exactly; consequently the slot clamp to `SLOTS_PER_CATEGORY - 1` can be
triggered mathematically (the payload `"."` has fraction exactly `1` and
its slot is clamped), not only by floating-point rounding. -/
theorem lexFraction_range :
    (∀ p : String, 0 ≤ lexFraction p ∧ lexFraction p < 40 / 39)
    ∧ lexFraction "" = 0
    ∧ lexFraction "." = 1
    ∧ (slotIndexWithinCategory ".").slot = (SLOTS_PER_CATEGORY : ℤ) - 1 := by
  refine ⟨fun p => ⟨lexFraction_nonneg p, lexFraction_lt p⟩, rfl,
    lexFraction_dot_eq, ?_⟩
  rw [slotIndexWithinCategory_eval]
  norm_num [show slotNat (payloadForEffective ".") = 86399 from by decide,
    SLOTS_PER_CATEGORY]

/-- C3, counterexample: the charset does not have 41 characters. -/
theorem charset_size_cex : ¬ (CHARSET.length = 41) := by decide

/-- C3, amended: the charset is an ordered sequence of exactly 40
characters, the rank function `charCode` has range `[0, 39]` with any
character outside the charset mapping to the maximum rank `39`, and the
fraction encoder uses base `B = BASE = 40`, the character at 1-based
position `i` contributing `(rank + 1) / B ^ i`, summed over at most the
first 128 characters. -/
theorem charset_rank_and_base :
    CHARSET.length = 40 ∧ BASE = 40
    ∧ (∀ c : Char, charCode c ≤ 39)
    ∧ (∀ c : Char, c ∉ CHARSET.toList → charCode c = 39)
    ∧ (∀ p : String,
        lexFraction p = specFracFrom 0 ((strToUpper p).toList.take 128)) :=
  ⟨by decide, BASE_eq, charCode_le, fun _ hc => charCode_of_not_mem hc,
   lexFraction_eq_spec⟩

/-- Witness for C3's amended theorem: the lowercase letter `'a'` is outside
the charset and receives the maximum rank `39`. -/
theorem charset_rank_and_base_witness :
    'a' ∉ CHARSET.toList ∧ charCode 'a' = 39 :=
  ⟨by decide, charset_rank_and_base.2.2.2.1 'a' (by decide)⟩

/-- C4, counterexample: the three plans are not equal in every field — the
`input` field keeps the original raw string, so `plan("  boot ")` and
`plan("BOOT")` are distinct records. -/
theorem plan_case_whitespace_cex :
    planForName "  boot " ≠ planForName "BOOT" := by
  simp only [planForName_eval]
  decide

/-- C4, amended: `plan("  boot ")`, `plan("BOOT")` and `plan("Boot")`
produce the identical effective name `"SYS_BOOT"` and identical output in
every field except `input` (which keeps each original raw string); in
particular their offsets, and hence the derived timestamps, coincide. -/
theorem plan_case_whitespace_insensitive :
    (planForName "  boot ").effectiveName = "SYS_BOOT"
    ∧ (planForName "BOOT").effectiveName = "SYS_BOOT"
    ∧ (planForName "Boot").effectiveName = "SYS_BOOT"
    ∧ planCore (planForName "  boot ") = planCore (planForName "BOOT")
    ∧ planCore (planForName "BOOT") = planCore (planForName "Boot")
    ∧ (planForName "  boot ").input = "  boot "
    ∧ (planForName "BOOT").input = "BOOT"
    ∧ ∀ base : ℤ,
        epochMillis base (planForName "  boot ")
            = epochMillis base (planForName "BOOT")
        ∧ epochMillis base (planForName "BOOT")
            = epochMillis base (planForName "Boot") := by
  have h1 : (planForName "  boot ").offsetSeconds
      = (planForName "BOOT").offsetSeconds := by
    simp only [planForName_eval]; decide
  have h2 : (planForName "BOOT").offsetSeconds
      = (planForName "Boot").offsetSeconds := by
    simp only [planForName_eval]; decide
  refine ⟨?_, ?_, ?_, ?_, ?_, rfl, rfl, fun base => ⟨?_, ?_⟩⟩
  · simp only [planForName_eval]; decide
  · simp only [planForName_eval]; decide
  · simp only [planForName_eval]; decide
  · simp only [planForName_eval]; decide
  · simp only [planForName_eval]; decide
  · simp only [epochMillis, h1]
  · simp only [epochMillis, h2]

/-- C5: for every input string, the slot of `plan(s)` satisfies
`0 ≤ slot < SLOTS_PER_CATEGORY`, and it is exactly the floor of
`fraction * SLOTS_PER_CATEGORY` clamped down to `SLOTS_PER_CATEGORY - 1`
whenever that floor reaches `SLOTS_PER_CATEGORY`. -/
theorem slot_bounded (s : String) :
    0 ≤ (planForName s).slot
    ∧ (planForName s).slot < (SLOTS_PER_CATEGORY : ℤ)
    ∧ (planForName s).slot =
        (if ⌊lexFraction ((planForName s).payloadUsed)
              * (SLOTS_PER_CATEGORY : ℚ)⌋ ≥ (SLOTS_PER_CATEGORY : ℤ)
         then (SLOTS_PER_CATEGORY : ℤ) - 1
         else ⌊lexFraction ((planForName s).payloadUsed)
                * (SLOTS_PER_CATEGORY : ℚ)⌋) := by
  refine ⟨?_, ?_, ?_⟩
  · rw [planForName_eval]
    simp only [planEval]
    exact Int.natCast_nonneg _
  · rw [planForName_eval]
    simp only [planEval]
    have := slotNat_le (payloadForEffective (normalizeToEffective s))
    simp only [SLOTS_PER_CATEGORY] at *
    omega
  · simp only [planForName, slotIndexWithinCategory]

/-- C6: the known fixtures — `plan("RESTART")` has effective name
`"RAA_RESTART"` and category key `"RAA_"`; `plan("BOOT")` has effective
name `"SYS_BOOT"` and category key `"SYS_"`; `plan("")` has category key
`"DEFAULT"`, payload `""` and slot `0`. -/
theorem plan_known_fixtures :
    (planForName "RESTART").effectiveName = "RAA_RESTART"
    ∧ (planForName "RESTART").categoryKey = "RAA_"
    ∧ (planForName "BOOT").effectiveName = "SYS_BOOT"
    ∧ (planForName "BOOT").categoryKey = "SYS_"
    ∧ (planForName "").categoryKey = "DEFAULT"
    ∧ (planForName "").payloadUsed = ""
    ∧ (planForName "").slot = 0 := by
  simp only [planForName_eval]
  decide

/-- C7: the classifier agrees, on every effective name, with first-match
testing of the rules in `CATEGORY_ORDER`'s priority order — prefix match
for the four-character keys, an exact match for the literal `"APPS"`, a
bare `"SYS"` accepted as `SYS_`, and the sentinel `DEFAULT` when no rule
matches. -/
theorem category_classification_first_match (eff : String) :
    effectiveCategoryKey eff = specCategoryKey eff :=
  effectiveCategoryKey_eq_spec eff

/-- C8: with the `name` query parameter absent or empty, the handler
returns the failure body `{ ok: false, error: "Missing 'name' query
param" }` (by construction without consulting `planForName`); otherwise it
returns the serialized `planForName name` whose `ok` field is `true`. -/
theorem handleApi_missing_name :
    (handleApi none).body = ApiBody.errorBody false "Missing 'name' query param"
    ∧ (handleApi (some "")).body
        = ApiBody.errorBody false "Missing 'name' query param"
    ∧ ∀ s : String, s ≠ "" →
        (handleApi (some s)).body = ApiBody.planBody (planForName s)
        ∧ (planForName s).ok = true := by
  refine ⟨rfl, rfl, fun s hs => ⟨?_, rfl⟩⟩
  simp [handleApi, hs]

/-- Witness for C8 at the non-empty name `"BOOT"`. -/
theorem handleApi_missing_name_witness :
    ("BOOT" : String) ≠ ""
    ∧ (handleApi (some "BOOT")).body = ApiBody.planBody (planForName "BOOT")
    ∧ (planForName "BOOT").ok = true :=
  ⟨by decide, handleApi_missing_name.2.2 "BOOT" (by decide)⟩

/-- C9: every response of the handler is served with HTTP status `200`,
including the missing-parameter failure body — a missing `name` is never
signalled through an HTTP error status. -/
theorem handleApi_always_200 :
    (∀ p : Option String, (handleApi p).status = 200)
    ∧ (handleApi none).status = 200
    ∧ (handleApi none).body
        = ApiBody.errorBody false "Missing 'name' query param" :=
  ⟨fun _ => rfl, rfl, rfl⟩

/-- C10: for every input string the classifier's key is one of the 13
entries of `CATEGORY_ORDER`, so the category index is a well-defined
position in `[0, 12]`, and the plan's `offsetSeconds` is non-negative. -/
theorem plan_category_always_defined (s : String) :
    (planForName s).categoryKey ∈ CATEGORY_ORDER
    ∧ (planForName s).categoryIndex < 13
    ∧ 0 ≤ (planForName s).offsetSeconds := by
  have hmem := effectiveCategoryKey_mem (normalizeToEffective s)
  refine ⟨hmem, ?_, ?_⟩
  · have h2 := List.indexOf_lt_length.2 hmem
    have h3 : CATEGORY_ORDER.length = 13 := by decide
    have h4 : (planForName s).categoryIndex
        = CATEGORY_ORDER.indexOf (effectiveCategoryKey (normalizeToEffective s)) := rfl
    omega
  · rw [planForName_eval]
    simp only [planEval]
    exact Int.natCast_nonneg _
